import Mathlib

set_option maxHeartbeats 1000000

/-!
Verification of the minimal HTTP/1.1 server (`http-server.cpp`): a shallow
embedding of `HttpRequest::parse`, `RequestHandler::handle` and `handleClient`
over byte strings, with the file system and the socket modelled as explicit
state (an association list of files, and the list of chunks successive `recv`
calls return).  Bytes are `Nat` values 0..255; C++ `std::string` values are
lists of bytes.
-/

/-- Byte strings: C++ `std::string` / `char` buffers as lists of byte values. -/
abbrev ByteStr := List Nat

/-- ASCII byte list of a Lean string literal (all literals used are ASCII). -/
def strB (s : String) : ByteStr := s.data.map Char.toNat

/-- C `isspace` in the C locale: space (32) and 9..13. -/
def isSpaceB (b : Nat) : Bool := b == 32 || (9 ≤ b && b ≤ 13)

/-- C `isdigit`. -/
def isDigitB (b : Nat) : Bool := 48 ≤ b && b ≤ 57

/-- `::tolower` in the C locale: fold 'A'..'Z' to 'a'..'z', identity elsewhere. -/
def toLowerB (b : Nat) : Nat := if 65 ≤ b ∧ b ≤ 90 then b + 32 else b

/-- `std::transform(key.begin(), key.end(), key.begin(), ::tolower)`. -/
def toLowerS (s : ByteStr) : ByteStr := s.map toLowerB

/-- `std::map<std::string, std::string>` as an association list; ordering of
keys is never observed by the program (only `find` and `operator[]`). -/
abbrev StrMap := List (ByteStr × ByteStr)

/-- `map.find(k)` (returns the mapped value when the key is present). -/
def mapFind : StrMap → ByteStr → Option ByteStr
  | [], _ => none
  | (k0, v) :: r, k => if k0 == k then some v else mapFind r k

/-- `map[k] = v`: insert or overwrite (last write wins). -/
def mapInsert : StrMap → ByteStr → ByteStr → StrMap
  | [], k, v => [(k, v)]
  | (k0, v0) :: r, k, v =>
    if k0 == k then (k, v) :: r else (k0, v0) :: mapInsert r k v

/-- `pat` matches `l` from its start (byte-wise equality of the first
`pat.length` bytes); the recursion is on `pat` so that a concrete pattern
reduces against a partially symbolic `l`. -/
def startsWithB : ByteStr → ByteStr → Bool
  | [], _ => true
  | a :: as, l =>
    match l with
    | [] => false
    | b :: bs => a == b && startsWithB as bs

/-- Scan for the first index at or after `i` where `pat` occurs. -/
def findFrom (pat : ByteStr) : ByteStr → Nat → Option Nat
  | [], i => if startsWithB pat [] then some i else none
  | b :: r, i => if startsWithB pat (b :: r) then some i else findFrom pat r (i + 1)

/-- `std::string::find(pat)`: index of the first occurrence, `none` for `npos`. -/
def findSubstr (l pat : ByteStr) : Option Nat := findFrom pat l 0

/-- Successive `std::getline(stream, line)` results: split on LF (10), the
delimiter being consumed; a final unterminated segment is returned, but a
trailing delimiter does not produce an extra empty line. -/
def getlines : ByteStr → List ByteStr
  | [] => []
  | b :: s =>
    if b = 10 then [] :: getlines s
    else
      match getlines s with
      | [] => [[b]]
      | l :: ls => (b :: l) :: ls

/-- `stream >> tok` on an `istringstream`: skip whitespace, read a maximal
non-whitespace run; returns the token and the rest of the stream (a failed
extraction at end of stream yields the empty token, as `operator>>` erases
the target string before reading). -/
def extractToken (s : ByteStr) : ByteStr × ByteStr :=
  let t := s.dropWhile isSpaceB
  (t.takeWhile (fun b => !isSpaceB b), t.dropWhile (fun b => !isSpaceB b))

/-- `if (line.back() == '\r') line.pop_back();` — on the empty line `back()`
is undefined behaviour in C++; the model leaves the empty line unchanged
(no claim exercises that corner). -/
def stripCR (l : ByteStr) : ByteStr :=
  match l.getLast? with
  | some 13 => l.dropLast
  | _ => l

def colonSpace : ByteStr := [58, 32]

/-- One iteration of the header loop: strip the trailing CR, split at the
first `": "`, lowercase the name, insert; lines without `": "` are skipped. -/
def parseHeaderLine (hs : StrMap) (line : ByteStr) : StrMap :=
  let l := stripCR line
  match findSubstr l colonSpace with
  | none => hs
  | some pos => mapInsert hs (toLowerS (l.take pos)) (l.drop (pos + 2))

def parseHeaderLines (ls : List ByteStr) : StrMap := ls.foldl parseHeaderLine []

/-- The exceptions `std::stoi` can throw. -/
inductive StoiError
  | invalidArgument
  | outOfRange
deriving DecidableEq

def digitsVal (ds : ByteStr) : Nat := ds.foldl (fun a d => a * 10 + (d - 48)) 0

/-- `std::stoi` (base 10): skip whitespace, optional sign, a nonempty digit
run (trailing junk ignored); no digits throws `invalid_argument`, a value
outside `int` range throws `out_of_range`. -/
def stoi (s : ByteStr) : Except StoiError Int :=
  let s1 := s.dropWhile isSpaceB
  let sign : Int := if s1.headD 0 == 45 then -1 else 1
  let s2 := if s1.headD 0 == 45 || s1.headD 0 == 43 then s1.tail else s1
  let ds := s2.takeWhile isDigitB
  if ds.isEmpty then .error .invalidArgument
  else
    let v : Int := sign * (digitsVal ds : Int)
    if v < -2147483648 ∨ 2147483647 < v then .error .outOfRange else .ok v

/-- The `while (already_read < content_length) { recv; ... }` loop of
`HttpRequest::parse`.  The socket is the list of chunks successive `recv`
calls return; an exhausted list or an empty chunk is `n <= 0` (EOF/error),
which breaks the loop.  Returns the final body and the unread chunks. -/
def readLoop (cl : Int) : List ByteStr → ByteStr → ByteStr × List ByteStr
  | [], body => (body, [])
  | c :: rest, body =>
    if (body.length : Int) < cl then
      if c = [] then (body, rest) else readLoop cl rest (body ++ c)
    else (body, c :: rest)

/-- The parsed request (`class HttpRequest`); fields default to empty. -/
structure HttpRequest where
  method : ByteStr
  path : ByteStr
  version : ByteStr
  headers : StrMap
  body : ByteStr
deriving DecidableEq

def emptyRequest : HttpRequest := ⟨[], [], [], [], []⟩

/-- The header/body separator `"\r\n\r\n"`. -/
def sepB : ByteStr := [13, 10, 13, 10]

/-- `buffer[bytes_read] = '\0'; std::string raw_request(buffer);` — the
buffer read as a C string stops at the first NUL byte. -/
def rawOf (b : ByteStr) : ByteStr := b.takeWhile (fun x => x != 0)

/-- `raw_request.find("\r\n\r\n")`. -/
def headerEndOf (b : ByteStr) : Option Nat := findSubstr (rawOf b) sepB

/-- The lines `std::getline` yields from the header section. -/
def linesOf (b : ByteStr) : List ByteStr :=
  match headerEndOf b with
  | none => []
  | some he => getlines ((rawOf b).take he)

def requestLineOf (b : ByteStr) : ByteStr := (linesOf b).headD []

def headersOf (b : ByteStr) : StrMap := parseHeaderLines (linesOf b).tail

/-- `raw_request.substr(header_end + 4)`: the body bytes already present in
the initial buffer ([] when no separator was found). -/
def seedOf (b : ByteStr) : ByteStr :=
  match headerEndOf b with
  | none => []
  | some he => (rawOf b).drop (he + 4)

def hCL : ByteStr := strB "content-length"

/-- `content_length`: 0 without the header, else what `std::stoi` makes of
the value (errors propagate as C++ exceptions). -/
def contentLengthOf (hs : StrMap) : Except StoiError Int :=
  match mapFind hs hCL with
  | none => .ok 0
  | some v => stoi v

/-- `HttpRequest::parse(client_fd, buffer, bytes_read)`.  `b` is the initial
buffer contents (the `bytes_read` bytes), `s` the chunks later `recv` calls
on the same socket would return.  `.error` is a C++ exception escaping
`parse`; otherwise the request and the still-unread chunks are returned. -/
def parse (b : ByteStr) (s : List ByteStr) :
    Except StoiError (HttpRequest × List ByteStr) :=
  match headerEndOf b with
  | none => .ok (emptyRequest, s)
  | some _ =>
    let t1 := extractToken (requestLineOf b)
    let t2 := extractToken t1.2
    let t3 := extractToken t2.2
    match contentLengthOf (headersOf b) with
    | .error e => .error e
    | .ok cl =>
      let br := readLoop cl s (seedOf b)
      .ok (⟨t1.1, t2.1, t3.1, headersOf b, br.1⟩, br.2)

/-- A response as produced by `RequestHandler::handle`: either the triple
passed to `sendResponse`, or a raw pre-formatted string (`sendRaw`). -/
inductive ResponseMsg
  | structured (status contentType body : ByteStr)
  | raw (bytes : ByteStr)
deriving DecidableEq

/-- The files under the base directory, by full path. -/
abbrev FS := StrMap

def mGET : ByteStr := strB "GET"
def mPOST : ByteStr := strB "POST"
def pRoot : ByteStr := strB "/"
def pEcho : ByteStr := strB "/echo/"
def pUA : ByteStr := strB "/user-agent"
def pFiles : ByteStr := strB "/files/"
def hUA : ByteStr := strB "user-agent"
def ok200Raw : ByteStr := strB "HTTP/1.1 200 OK\r\n\r\n"
def notFoundRaw : ByteStr := strB "HTTP/1.1 404 Not Found\r\n\r\n"
def createdRaw : ByteStr := strB "HTTP/1.1 201 Created\r\n\r\n"
def st200 : ByteStr := strB "200 OK"
def ctText : ByteStr := strB "text/plain"
def ctOctet : ByteStr := strB "application/octet-stream"
def unknownS : ByteStr := strB "Unknown"

/-- `RequestHandler::handle`: the ordered if/else routing chain.  File reads
are lookups in `fs`; a `POST` write inserts (overwrites) the file — the
`500` branch (the OS refusing to open the file for writing) is outside the
modelled state and is not taken here. -/
def handle (dir : ByteStr) (req : HttpRequest) (fs : FS) : ResponseMsg × FS :=
  if req.method == mGET && req.path == pRoot then (.raw ok200Raw, fs)
  else if req.method == mGET && startsWithB pEcho req.path then
    (.structured st200 ctText (req.path.drop 6), fs)
  else if req.method == mGET && req.path == pUA then
    (.structured st200 ctText ((mapFind req.headers hUA).getD unknownS), fs)
  else if req.method == mGET && startsWithB pFiles req.path then
    match mapFind fs (dir ++ [47] ++ req.path.drop 7) with
    | none => (.raw notFoundRaw, fs)
    | some content => (.structured st200 ctOctet content, fs)
  else if req.method == mPOST && startsWithB pFiles req.path then
    (.raw createdRaw, mapInsert fs (dir ++ [47] ++ req.path.drop 7) req.body)
  else (.raw notFoundRaw, fs)

/-- Observable events of one `handleClient` session: a response handed to the
client, the `close(client_fd)` call, or a C++ exception escaping the thread
function (which, the thread being detached, calls `std::terminate` and kills
the whole process — in particular `close` is never reached). -/
inductive SessionEvent
  | resp (r : ResponseMsg)
  | closeFd
  | crash
deriving DecidableEq

def hConn : ByteStr := strB "connection"
def vClose : ByteStr := strB "close"

/-- `handleClient(client_fd, base_dir)`: the keep-alive loop.  `chunks` is
what successive `recv` calls on the socket return (the outer read takes the
first chunk; `parse` consumes further ones); an exhausted list or an empty
chunk is `bytes_read <= 0`.  Clearing the buffer between requests is
unobservable because the parser stops at the written NUL terminator. -/
def session (dir : ByteStr) : List ByteStr → FS → List SessionEvent × FS
  | [], fs => ([.closeFd], fs)
  | c :: rest, fs =>
    if c = [] then ([.closeFd], fs)
    else
      match h : parse c rest with
      | .error _ => ([.crash], fs)
      | .ok (req, rest2) =>
        let hr := handle dir req fs
        if mapFind req.headers hConn = some vClose then
          ([.resp hr.1, .closeFd], hr.2)
        else
          let er := session dir rest2 hr.2
          (.resp hr.1 :: er.1, er.2)
termination_by chunks _ => chunks.length
decreasing_by
  simp only [List.length_cons]
  apply Nat.lt_succ_of_le
  have hrl : ∀ (cl : Int) (s : List ByteStr) (body : ByteStr),
      (readLoop cl s body).2.length ≤ s.length := by
    intro cl s
    induction s with
    | nil => intro body; simp [readLoop]
    | cons c0 rest0 ih =>
      intro body
      simp only [readLoop]
      by_cases h1 : (body.length : Int) < cl
      · simp only [h1, if_true]
        by_cases h2 : c0 = []
        · simp [h2]
        · simp only [h2, if_false]
          exact Nat.le_succ_of_le (ih (body ++ c0))
      · simp [h1]
  revert h
  unfold parse
  cases hhe : headerEndOf c with
  | none => intro h; simp only [Except.ok.injEq, Prod.mk.injEq] at h; rw [← h.2]
  | some he =>
    cases hcl : contentLengthOf (headersOf c) with
    | error e => intro h; simp at h
    | ok cl =>
      intro h
      simp only [Except.ok.injEq, Prod.mk.injEq] at h
      rw [← h.2]
      exact hrl cl rest (seedOf c)

/-- The request line and header terminator of a `/user-agent` request. -/
def uaLit : ByteStr := strB "GET /user-agent HTTP/1.1\r\n"

/-- A complete one-header `GET /user-agent` request whose header name `k` and
value `v` are parameters. -/
def uaReq (k v : ByteStr) : ByteStr := uaLit ++ k ++ colonSpace ++ v ++ sepB

/-- The header section of `uaReq k v`. -/
def headerA (k v : ByteStr) : ByteStr := uaLit ++ k ++ colonSpace ++ v

/-- A header name free of NUL, CR, LF and colon bytes (every real HTTP header
name is). -/
def goodKey (k : ByteStr) : Prop := 0 ∉ k ∧ 13 ∉ k ∧ 10 ∉ k ∧ 58 ∉ k

/-- A header value free of NUL, CR and LF bytes. -/
def goodVal (v : ByteStr) : Prop := 0 ∉ v ∧ 13 ∉ v ∧ 10 ∉ v

/-- What `parse` makes of `uaReq k v`: it depends on the header name only
through its lowercase folding. -/
def uaParsed (k v : ByteStr) (s : List ByteStr) :
    Except StoiError (HttpRequest × List ByteStr) :=
  match contentLengthOf [(toLowerS k, v)] with
  | .error e => .error e
  | .ok cl =>
    let br := readLoop cl s []
    .ok (⟨strB "GET", strB "/user-agent", strB "HTTP/1.1", [(toLowerS k, v)], br.1⟩, br.2)


/-! ### Generic helper lemmas -/

theorem takeWhile_all {p : Nat → Bool} {l : ByteStr} (h : ∀ x ∈ l, p x = true) :
    l.takeWhile p = l :=
  List.takeWhile_eq_self_iff.mpr h

theorem mem_of_getLast?_some {l : ByteStr} {x : Nat} (h : l.getLast? = some x) : x ∈ l :=
  List.mem_of_getLast?_eq_some h

theorem drop_len_add (a : ByteStr) : ∀ (t : ByteStr) (n : Nat), (a ++ t).drop (a.length + n) = t.drop n := by
  induction a with
  | nil => intro t n; simp
  | cons x xs ih => intro t n; simpa [Nat.succ_add] using ih t n

theorem startsWithB_self_append (p t : ByteStr) : startsWithB p (p ++ t) = true := by
  induction p with
  | nil => rfl
  | cons a as ih => simp [startsWithB, ih]

theorem startsWithB_mono {p l : ByteStr} (t : ByteStr) (h : startsWithB p l = true) :
    startsWithB p (l ++ t) = true := by
  induction p generalizing l with
  | nil => rfl
  | cons a as ih =>
    cases l with
    | nil => simp [startsWithB] at h
    | cons b bs =>
      simp only [startsWithB, Bool.and_eq_true, List.cons_append] at h ⊢
      exact ⟨h.1, ih h.2⟩

theorem startsWithB_false_of_head {c : Nat} {p' l : ByteStr}
    (h : ∀ x, l.head? = some x → x ≠ c) : startsWithB (c :: p') l = false := by
  cases l with
  | nil => rfl
  | cons b bs =>
    have hb : b ≠ c := h b rfl
    have hcb : (c == b) = false := beq_eq_false_iff_ne.mpr (fun hcb => hb hcb.symm)
    simp [startsWithB, hcb]

theorem findFrom_cons_false {p : ByteStr} {x : Nat} {r : ByteStr} {i : Nat}
    (h : startsWithB p (x :: r) = false) : findFrom p (x :: r) i = findFrom p r (i + 1) := by
  simp [findFrom, h]

theorem findFrom_cons_true {p : ByteStr} {x : Nat} {r : ByteStr} {i : Nat}
    (h : startsWithB p (x :: r) = true) : findFrom p (x :: r) i = some i := by
  simp [findFrom, h]

theorem findFrom_skip {c : Nat} {p' : ByteStr} {a : ByteStr} (hc : c ∉ a) :
    ∀ (t : ByteStr) (i : Nat),
      findFrom (c :: p') (a ++ t) i = findFrom (c :: p') t (i + a.length) := by
  induction a with
  | nil => intro t i; simp
  | cons x xs ih =>
    intro t i
    have hx : x ≠ c := fun hxc => hc (hxc ▸ List.mem_cons_self x xs)
    have hsw : startsWithB (c :: p') (x :: (xs ++ t)) = false := by
      apply startsWithB_false_of_head
      intro y hy
      cases hy
      exact hx
    have hnotin : c ∉ xs := fun hm => hc (List.mem_cons_of_mem x hm)
    rw [List.cons_append, findFrom_cons_false hsw, ih hnotin t (i + 1)]
    congr 1
    simp [List.length_cons]
    omega

theorem findFrom_none_forall {p : ByteStr} :
    ∀ {l : ByteStr} {i : Nat}, findFrom p l i = none →
      ∀ j, startsWithB p (l.drop j) = false := by
  intro l
  induction l with
  | nil =>
    intro i h j
    simp only [findFrom] at h
    cases hsw : startsWithB p [] with
    | false => simpa [List.drop_nil]
    | true => simp [hsw] at h
  | cons b r ih =>
    intro i h j
    simp only [findFrom] at h
    cases hsw : startsWithB p (b :: r) with
    | true => simp [hsw] at h
    | false =>
      rw [hsw] at h
      simp only [Bool.false_eq_true, if_false] at h
      cases j with
      | zero => simpa using hsw
      | succ j' => simpa using ih h j'

theorem findFrom_none_of_forall {p : ByteStr} :
    ∀ (l : ByteStr) (i : Nat), (∀ j, startsWithB p (l.drop j) = false) →
      findFrom p l i = none := by
  intro l
  induction l with
  | nil =>
    intro i h
    have := h 0
    simp only [List.drop_nil] at this
    simp [findFrom, this]
  | cons b r ih =>
    intro i h
    have h0 := h 0
    simp only [List.drop_zero] at h0
    rw [findFrom_cons_false h0]
    exact ih (i + 1) (fun j => by simpa using h (j + 1))

theorem getlines_append10 {a : ByteStr} (rest : ByteStr) (h : 10 ∉ a) :
    getlines (a ++ 10 :: rest) = a :: getlines rest := by
  induction a with
  | nil => simp [getlines]
  | cons x xs ih =>
    have hx : x ≠ 10 := fun hx10 => h (hx10 ▸ List.mem_cons_self x xs)
    have hxs : 10 ∉ xs := fun hm => h (List.mem_cons_of_mem x hm)
    rw [List.cons_append]
    simp only [getlines, hx, if_false, ih hxs]

theorem getlines_single {a : ByteStr} (h : 10 ∉ a) (hne : a ≠ []) : getlines a = [a] := by
  induction a with
  | nil => exact absurd rfl hne
  | cons x xs ih =>
    have hx : x ≠ 10 := fun hx10 => h (hx10 ▸ List.mem_cons_self x xs)
    have hxs : 10 ∉ xs := fun hm => h (List.mem_cons_of_mem x hm)
    by_cases hxsnil : xs = []
    · subst hxsnil
      simp [getlines, hx]
    · simp only [getlines, hx, if_false, ih hxs hxsnil]

theorem readLoop_noread {cl : Int} {body : ByteStr} (s : List ByteStr)
    (h : ¬ (body.length : Int) < cl) : readLoop cl s body = (body, s) := by
  cases s with
  | nil => rfl
  | cons c rest => simp [readLoop, h]

theorem readLoop_decompose (cl : Int) :
    ∀ (s : List ByteStr) (body : ByteStr),
      ∃ pre, s = pre ++ (readLoop cl s body).2 ∧
        (readLoop cl s body).1 = body ++ pre.flatten ∧
        (cl ≤ ((readLoop cl s body).1.length : Int) ∨
          (readLoop cl s body).2 = [] ∨ [] ∈ pre) := by
  intro s
  induction s with
  | nil =>
    intro body
    exact ⟨[], by simp [readLoop]⟩
  | cons c rest ih =>
    intro body
    by_cases hlt : (body.length : Int) < cl
    · by_cases hc : c = []
      · refine ⟨[[]], ?_⟩
        simp [readLoop, hlt, hc]
      · obtain ⟨pre, h1, h2, h3⟩ := ih (body ++ c)
        refine ⟨c :: pre, ?_, ?_, ?_⟩
        · simp only [readLoop, hlt, if_true, hc, if_false]
          rw [List.cons_append]
          exact congrArg (c :: ·) h1
        · simp only [readLoop, hlt, if_true, hc, if_false]
          rw [h2, List.flatten_cons, List.append_assoc]
        · simp only [readLoop, hlt, if_true, hc, if_false]
          rcases h3 with h3 | h3 | h3
          · exact Or.inl h3
          · exact Or.inr (Or.inl h3)
          · exact Or.inr (Or.inr (List.mem_cons_of_mem c h3))
    · refine ⟨[], ?_⟩
      simp [readLoop_noread _ hlt, le_of_not_lt hlt]

theorem mapFind_insert_self (m : StrMap) (k v : ByteStr) :
    mapFind (mapInsert m k v) k = some v := by
  induction m with
  | nil => simp [mapInsert, mapFind]
  | cons p r ih =>
    obtain ⟨k0, v0⟩ := p
    by_cases h : k0 == k
    · simp [mapInsert, h, mapFind]
    · simp only [mapInsert, h, Bool.false_eq_true, if_false, mapFind]
      exact ih

theorem rawOf_idem (b : ByteStr) : rawOf (rawOf b) = rawOf b :=
  List.takeWhile_idem

theorem parse_raw_congr {b1 b2 : ByteStr} (h : rawOf b1 = rawOf b2) (s : List ByteStr) :
    parse b1 s = parse b2 s := by
  simp only [parse, headerEndOf, requestLineOf, linesOf, headersOf, seedOf, h]

theorem no_sep_in_raw {b : ByteStr} (h : findSubstr b sepB = none) :
    headerEndOf b = none := by
  have hall := findFrom_none_forall h
  apply findFrom_none_of_forall
  intro j
  by_cases hj : j ≤ (rawOf b).length
  · cases hsw : startsWithB sepB ((rawOf b).drop j) with
    | false => rfl
    | true =>
      exfalso
      have hb : b = rawOf b ++ b.dropWhile (fun x => x != 0) :=
        (List.takeWhile_append_dropWhile _ _).symm
      have hdrop : b.drop j = (rawOf b).drop j ++ b.dropWhile (fun x => x != 0) := by
        conv_lhs => rw [hb]
        exact List.drop_append_of_le_length hj
      have : startsWithB sepB (b.drop j) = true := by
        rw [hdrop]
        exact startsWithB_mono _ hsw
      rw [hall j] at this
      exact Bool.noConfusion this
  · have : (rawOf b).drop j = [] := List.drop_eq_nil_of_le (by omega)
    rw [this]
    rfl

/-! ### Unfolding equations for `session` -/

theorem session_nil (dir : ByteStr) (fs : FS) : session dir [] fs = ([.closeFd], fs) := by
  simp [session]

theorem session_cons_emptychunk (dir : ByteStr) (rest : List ByteStr) (fs : FS) :
    session dir ([] :: rest) fs = ([.closeFd], fs) := by
  simp [session]

theorem session_cons_err {c : ByteStr} {rest : List ByteStr} {e : StoiError}
    (dir : ByteStr) (fs : FS) (hc : c ≠ []) (hp : parse c rest = .error e) :
    session dir (c :: rest) fs = ([.crash], fs) := by
  rw [session, if_neg hc]
  split
  · rfl
  · next req rest2 heq =>
    rw [hp] at heq
    exact Except.noConfusion heq

theorem session_cons_close {c : ByteStr} {rest rest2 : List ByteStr} {req : HttpRequest}
    (dir : ByteStr) (fs : FS) (hc : c ≠ []) (hp : parse c rest = .ok (req, rest2))
    (hcl : mapFind req.headers hConn = some vClose) :
    session dir (c :: rest) fs =
      ([.resp (handle dir req fs).1, .closeFd], (handle dir req fs).2) := by
  rw [session, if_neg hc]
  split
  · next e heq =>
    rw [hp] at heq
    exact Except.noConfusion heq
  · next req' rest2' heq =>
    rw [hp] at heq
    simp only [Except.ok.injEq, Prod.mk.injEq] at heq
    obtain ⟨h1, h2⟩ := heq
    subst h1
    subst h2
    rw [if_pos hcl]

theorem session_cons_keep {c : ByteStr} {rest rest2 : List ByteStr} {req : HttpRequest}
    (dir : ByteStr) (fs : FS) (hc : c ≠ []) (hp : parse c rest = .ok (req, rest2))
    (hcl : mapFind req.headers hConn ≠ some vClose) :
    session dir (c :: rest) fs =
      (.resp (handle dir req fs).1 :: (session dir rest2 (handle dir req fs).2).1,
        (session dir rest2 (handle dir req fs).2).2) := by
  rw [session, if_neg hc]
  split
  · next e heq =>
    rw [hp] at heq
    exact Except.noConfusion heq
  · next req' rest2' heq =>
    rw [hp] at heq
    simp only [Except.ok.injEq, Prod.mk.injEq] at heq
    obtain ⟨h1, h2⟩ := heq
    subst h1
    subst h2
    rw [if_neg hcl]

/-! ### Characterizing the header-line split and a `/user-agent` request -/

theorem stripCR_of_ne {l : ByteStr} (h : l.getLast? ≠ some 13) : stripCR l = l := by
  unfold stripCR
  split
  · next heq => exact absurd heq h
  · rfl

theorem stripCR_of_cr {l : ByteStr} (h : l.getLast? = some 13) : stripCR l = l.dropLast := by
  unfold stripCR
  split
  · rfl
  · next hne => exact absurd h hne

theorem getLast?_ne_cr_of_not13 {x : ByteStr} {v : ByteStr} (hv : 13 ∉ v) :
    (x ++ (58 :: 32 :: v)).getLast? ≠ some 13 := by
  intro hcontra
  have hx : (x ++ (58 :: 32 :: v)).getLast? = (58 :: 32 :: v).getLast? := by
    rw [List.getLast?_append]
    cases hg : (58 :: 32 :: v).getLast? with
    | none => simp [List.getLast?] at hg
    | some y => simp [Option.or]
  rw [hx] at hcontra
  have h13 : (13 : Nat) ∈ 58 :: 32 :: v := mem_of_getLast?_some hcontra
  simp at h13
  exact hv h13

theorem colonSpace_split {k v : ByteStr} (hk : 58 ∉ k) :
    findSubstr (k ++ (58 :: 32 :: v)) colonSpace = some k.length := by
  unfold findSubstr
  have hcs : colonSpace = 58 :: [32] := rfl
  rw [hcs, findFrom_skip hk, findFrom_cons_true (by rfl)]
  simp

theorem headerline_split {hs : StrMap} {k v : ByteStr} (hk : 58 ∉ k) (hv : 13 ∉ v) :
    parseHeaderLine hs (k ++ colonSpace ++ v) = mapInsert hs (toLowerS k) v := by
  have hassoc : k ++ colonSpace ++ v = k ++ (58 :: 32 :: v) := by
    simp [colonSpace, List.append_assoc]
  rw [hassoc]
  simp only [parseHeaderLine]
  rw [stripCR_of_ne (getLast?_ne_cr_of_not13 hv), colonSpace_split hk]
  have htake : (k ++ (58 :: 32 :: v)).take k.length = k := List.take_left' rfl
  have hdrop : (k ++ (58 :: 32 :: v)).drop (k.length + 2) = v := by
    rw [drop_len_add k (58 :: 32 :: v) 2]
    rfl
  show mapInsert hs (toLowerS ((k ++ (58 :: 32 :: v)).take k.length))
      ((k ++ (58 :: 32 :: v)).drop (k.length + 2)) = mapInsert hs (toLowerS k) v
  rw [htake, hdrop]

theorem uaReq_raw {k v : ByteStr} (hk : goodKey k) (hv : goodVal v) :
    rawOf (uaReq k v) = uaReq k v := by
  apply takeWhile_all
  intro x hx
  simp only [uaReq, List.mem_append] at hx
  have hlit : ∀ y ∈ uaLit, y ≠ 0 := by decide
  have hcs : ∀ y ∈ colonSpace, y ≠ 0 := by decide
  have hsep : ∀ y ∈ sepB, y ≠ 0 := by decide
  have hx0 : x ≠ 0 := by
    rcases hx with (((h | h) | h) | h) | h
    · exact hlit x h
    · exact fun h0 => hk.1 (h0 ▸ h)
    · exact hcs x h
    · exact fun h0 => hv.1 (h0 ▸ h)
    · exact hsep x h
  simpa using hx0

theorem uaReq_nested (k v : ByteStr) :
    uaReq k v =
      strB "GET /user-agent HTTP/1.1" ++ (13 :: 10 :: (k ++ (58 :: 32 :: (v ++ sepB)))) := by
  have h1 : uaLit = strB "GET /user-agent HTTP/1.1" ++ (13 :: [10]) := rfl
  simp only [uaReq, h1, colonSpace, List.append_assoc, List.cons_append, List.nil_append]

theorem uaReq_headerEnd {k v : ByteStr} (hk : goodKey k) (hv : goodVal v) :
    headerEndOf (uaReq k v) = some (headerA k v).length := by
  obtain ⟨hk0, hk13, hk10, hk58⟩ := hk
  obtain ⟨hv0, hv13, hv10⟩ := hv
  rw [headerEndOf, uaReq_raw ⟨hk0, hk13, hk10, hk58⟩ ⟨hv0, hv13, hv10⟩, findSubstr,
    uaReq_nested]
  have hsep : sepB = 13 :: [10, 13, 10] := rfl
  rw [hsep, findFrom_skip (show (13 : Nat) ∉ strB "GET /user-agent HTTP/1.1" by decide)]
  have hz : startsWithB [13, 10] (k ++ (58 :: 32 :: (v ++ 13 :: [10, 13, 10]))) = false := by
    apply startsWithB_false_of_head
    intro x hx
    cases k with
    | nil =>
      simp only [List.nil_append, List.head?_cons, Option.some.injEq] at hx
      omega
    | cons a as =>
      simp only [List.cons_append, List.head?_cons, Option.some.injEq] at hx
      subst hx
      exact fun h13 => hk13 (h13 ▸ List.mem_cons_self a as)
  have hw1 : startsWithB (13 :: [10, 13, 10])
      (13 :: 10 :: (k ++ (58 :: 32 :: (v ++ 13 :: [10, 13, 10])))) = false := by
    simp only [startsWithB, beq_self_eq_true, Bool.true_and]
    exact hz
  rw [findFrom_cons_false hw1]
  have hw2 : startsWithB (13 :: [10, 13, 10])
      (10 :: (k ++ (58 :: 32 :: (v ++ 13 :: [10, 13, 10])))) = false := by
    simp [startsWithB]
  rw [findFrom_cons_false hw2, findFrom_skip hk13]
  have hw3 : startsWithB (13 :: [10, 13, 10]) (58 :: 32 :: (v ++ 13 :: [10, 13, 10])) = false := by
    simp [startsWithB]
  rw [findFrom_cons_false hw3]
  have hw4 : startsWithB (13 :: [10, 13, 10]) (32 :: (v ++ 13 :: [10, 13, 10])) = false := by
    simp [startsWithB]
  rw [findFrom_cons_false hw4, findFrom_skip hv13, findFrom_cons_true (by rfl)]
  congr 1
  have h24 : (strB "GET /user-agent HTTP/1.1").length = 24 := rfl
  have h26 : uaLit.length = 26 := rfl
  have h2 : colonSpace.length = 2 := rfl
  simp only [headerA, List.length_append, h24, h26, h2]

theorem headerA_nested (k v : ByteStr) :
    headerA k v = strB "GET /user-agent HTTP/1.1\r" ++ (10 :: (k ++ (58 :: 32 :: v))) := by
  have h1 : uaLit = strB "GET /user-agent HTTP/1.1\r" ++ [10] := rfl
  simp only [headerA, h1, colonSpace, List.append_assoc, List.cons_append, List.nil_append]

theorem uaReq_lines {k v : ByteStr} (hk : goodKey k) (hv : goodVal v) :
    linesOf (uaReq k v) =
      [strB "GET /user-agent HTTP/1.1\r", k ++ (58 :: 32 :: v)] := by
  simp only [linesOf, uaReq_headerEnd hk hv, uaReq_raw hk hv]
  have htake : (uaReq k v).take (headerA k v).length = headerA k v := by
    have huar : uaReq k v = headerA k v ++ sepB := rfl
    rw [huar]
    exact List.take_left (headerA k v) sepB
  rw [htake, headerA_nested, getlines_append10 _ (by decide)]
  have h10 : (10 : Nat) ∉ k ++ (58 :: 32 :: v) := by
    intro hmem
    rcases List.mem_append.mp hmem with h | h
    · exact hk.2.2.1 h
    · simp only [List.mem_cons] at h
      rcases h with h | h | h
      · omega
      · omega
      · exact hv.2.2 h
  have hne : k ++ (58 :: 32 :: v) ≠ [] := by simp
  rw [getlines_single h10 hne]

theorem uaReq_reqline {k v : ByteStr} (hk : goodKey k) (hv : goodVal v) :
    requestLineOf (uaReq k v) = strB "GET /user-agent HTTP/1.1\r" := by
  rw [requestLineOf, uaReq_lines hk hv]
  rfl

theorem uaReq_headers {k v : ByteStr} (hk : goodKey k) (hv : goodVal v) :
    headersOf (uaReq k v) = [(toLowerS k, v)] := by
  rw [headersOf, uaReq_lines hk hv]
  show parseHeaderLines [k ++ (58 :: 32 :: v)] = [(toLowerS k, v)]
  have hassoc : k ++ (58 :: 32 :: v) = k ++ colonSpace ++ v := by
    simp [colonSpace, List.append_assoc]
  rw [show parseHeaderLines [k ++ (58 :: 32 :: v)] =
      parseHeaderLine [] (k ++ (58 :: 32 :: v)) from rfl, hassoc,
    headerline_split hk.2.2.2 hv.2.1]
  rfl

theorem uaReq_seed {k v : ByteStr} (hk : goodKey k) (hv : goodVal v) :
    seedOf (uaReq k v) = [] := by
  simp only [seedOf, uaReq_headerEnd hk hv, uaReq_raw hk hv]
  have huar : uaReq k v = headerA k v ++ sepB := rfl
  rw [huar, drop_len_add]
  rfl

theorem parse_uaReq {k v : ByteStr} (hk : goodKey k) (hv : goodVal v) (s : List ByteStr) :
    parse (uaReq k v) s = uaParsed k v s := by
  simp only [parse, uaParsed, uaReq_headerEnd hk hv, uaReq_reqline hk hv,
    uaReq_headers hk hv, uaReq_seed hk hv]
  cases contentLengthOf [(toLowerS k, v)] with
  | error e => rfl
  | ok cl => rfl

/-! ### Claim theorems -/

/-- C3: for every initial buffer containing no CRLF CRLF separator,
`HttpRequest::parse` returns the empty request (every field empty) with the
socket stream untouched (no further read), and `RequestHandler::handle`
routes the empty request to the raw `404 Not Found` reply. -/
theorem claim_C3_no_separator_yields_empty_request_and_404
    (b : ByteStr) (s : List ByteStr) (dir : ByteStr) (fs : FS)
    (h : findSubstr b sepB = none) :
    parse b s = .ok (emptyRequest, s) ∧
    emptyRequest.method = [] ∧ emptyRequest.path = [] ∧
    emptyRequest.version = [] ∧ emptyRequest.headers = [] ∧ emptyRequest.body = [] ∧
    handle dir emptyRequest fs = (.raw notFoundRaw, fs) := by
  have hhe := no_sep_in_raw h
  refine ⟨?_, rfl, rfl, rfl, rfl, rfl, rfl⟩
  simp only [parse, hhe]

/-- C3 witness: a buffer holding only a request line fragment has no
separator; parsing yields the empty request without touching the stream and
the handler answers 404. -/
theorem claim_C3_witness :
    findSubstr (strB "GET / HTTP/1.1\r\n") sepB = none ∧
    parse (strB "GET / HTTP/1.1\r\n") [strB "more"] =
      .ok (emptyRequest, [strB "more"]) ∧
    handle (strB ".") emptyRequest [] = (.raw notFoundRaw, []) := by
  refine ⟨by decide, ?_, ?_⟩
  · exact (claim_C3_no_separator_yields_empty_request_and_404
      (strB "GET / HTTP/1.1\r\n") [strB "more"] (strB ".") [] (by decide)).1
  · exact (claim_C3_no_separator_yields_empty_request_and_404
      (strB "GET / HTTP/1.1\r\n") [strB "more"] (strB ".") [] (by decide)).2.2.2.2.2.2

/-- C7: a `GET` request whose path is `/echo/` followed by any byte string
`s` (CR/LF-free as the claim assumes) is answered `200 OK`, content type
`text/plain`, body exactly `s` (the path suffix, not decoded). -/
theorem claim_C7_echo_returns_suffix
    (dir : ByteStr) (fs : FS) (s ver bd : ByteStr) (hs : StrMap)
    (hcrlf : 13 ∉ s ∧ 10 ∉ s) :
    handle dir ⟨mGET, pEcho ++ s, ver, hs, bd⟩ fs =
      (.structured st200 ctText s, fs) := rfl

/-- C7 witness at `s = "hello"`. -/
theorem claim_C7_witness :
    (13 ∉ strB "hello" ∧ 10 ∉ strB "hello") ∧
    handle (strB ".") ⟨mGET, pEcho ++ strB "hello", strB "HTTP/1.1", [], []⟩ [] =
      (.structured st200 ctText (strB "hello"), []) :=
  ⟨by decide, claim_C7_echo_returns_suffix (strB ".") [] (strB "hello")
    (strB "HTTP/1.1") [] [] (by decide)⟩

/-- C9: the parser only ever sees the bytes before the first NUL of the
initial buffer: `parse` factors through `rawOf` (the C-string truncation), a
separator occurring only after the NUL leaves the request empty with the
stream untouched, and the seeded body is drawn from the pre-NUL prefix. -/
theorem claim_C9_nul_truncates_buffer
    (b : ByteStr) (s : List ByteStr) (h0 : (0 : Nat) ∈ b) :
    parse b s = parse (rawOf b) s ∧
    (findSubstr (rawOf b) sepB = none → parse b s = .ok (emptyRequest, s)) ∧
    (∃ pre, pre ++ seedOf b = rawOf b) := by
  refine ⟨parse_raw_congr (rawOf_idem b).symm s, ?_, ?_⟩
  · intro hne
    simp only [parse, headerEndOf, hne]
  · cases hhe : headerEndOf b with
    | none =>
      exact ⟨rawOf b, by simp [seedOf, hhe]⟩
    | some he =>
      refine ⟨(rawOf b).take (he + 4), ?_⟩
      simp [seedOf, hhe]

/-- C9 witness: a buffer whose separator lies beyond a NUL byte parses to
the empty request, the stream untouched. -/
theorem claim_C9_witness :
    ((0 : Nat) ∈ strB "AB" ++ 0 :: strB "\r\n\r\nXYZ") ∧
    parse (strB "AB" ++ 0 :: strB "\r\n\r\nXYZ") [strB "t"] =
      .ok (emptyRequest, [strB "t"]) :=
  ⟨by decide,
    (claim_C9_nul_truncates_buffer (strB "AB" ++ 0 :: strB "\r\n\r\nXYZ")
      [strB "t"] (by decide)).2.1 (by decide)⟩

/-- C4: `POST /files/<n>` with body `B` answers `201 Created` after writing
`B` verbatim to `base_dir + "/" + n`, and a subsequent `GET /files/<n>`
(no interleaving writes) answers `200 OK`, content type
`application/octet-stream`, body exactly `B`, for every byte sequence `B`
and name `n`. -/
theorem claim_C4_post_then_get_roundtrip
    (dir : ByteStr) (fs : FS) (n B : ByteStr) (reqP reqG : HttpRequest)
    (hPm : reqP.method = mPOST) (hPp : reqP.path = pFiles ++ n) (hPb : reqP.body = B)
    (hGm : reqG.method = mGET) (hGp : reqG.path = pFiles ++ n) :
    handle dir reqP fs = (.raw createdRaw, mapInsert fs (dir ++ [47] ++ n) B) ∧
    handle dir reqG (mapInsert fs (dir ++ [47] ++ n) B) =
      (.structured st200 ctOctet B, mapInsert fs (dir ++ [47] ++ n) B) := by
  obtain ⟨mP, pP, vP, hsP, bP⟩ := reqP
  obtain ⟨mG, pG, vG, hsG, bG⟩ := reqG
  simp only at hPm hPp hPb hGm hGp
  subst mP; subst pP; subst bP; subst mG; subst pG
  constructor
  · rfl
  · show (match mapFind (mapInsert fs (dir ++ [47] ++ n) B) (dir ++ [47] ++ n) with
      | none => (ResponseMsg.raw notFoundRaw, mapInsert fs (dir ++ [47] ++ n) B)
      | some content =>
          (ResponseMsg.structured st200 ctOctet content,
            mapInsert fs (dir ++ [47] ++ n) B)) =
      (ResponseMsg.structured st200 ctOctet B, mapInsert fs (dir ++ [47] ++ n) B)
    rw [mapFind_insert_self]

/-- C4 witness at `n = "report.txt"` and a binary body containing NUL and
non-ASCII bytes. -/
theorem claim_C4_witness :
    handle (strB "/tmp") ⟨mPOST, pFiles ++ strB "report.txt", strB "HTTP/1.1", [], [0, 1, 255]⟩ [] =
      (.raw createdRaw, mapInsert [] (strB "/tmp" ++ [47] ++ strB "report.txt") [0, 1, 255]) ∧
    handle (strB "/tmp") ⟨mGET, pFiles ++ strB "report.txt", strB "HTTP/1.1", [], []⟩
        (mapInsert [] (strB "/tmp" ++ [47] ++ strB "report.txt") [0, 1, 255]) =
      (.structured st200 ctOctet [0, 1, 255],
        mapInsert [] (strB "/tmp" ++ [47] ++ strB "report.txt") [0, 1, 255]) :=
  claim_C4_post_then_get_roundtrip (strB "/tmp") [] (strB "report.txt") [0, 1, 255]
    ⟨mPOST, pFiles ++ strB "report.txt", strB "HTTP/1.1", [], [0, 1, 255]⟩
    ⟨mGET, pFiles ++ strB "report.txt", strB "HTTP/1.1", [], []⟩
    rfl rfl rfl rfl rfl

/-- C1 (amended): once `parse` completes, the body is the bytes after the
separator in the initial buffer plus the whole appended read chunks; without
a `Content-Length` header nothing more is read and the body is exactly the
initial remainder (not necessarily empty); the loop stops once the body
reaches the declared length — so the final body is at least `content_length`
unless `recv` signalled EOF/error first, in which case it is exactly the
bytes received so far; it can exceed the declared length. -/
theorem claim_C1_amended_body_characterization
    (b : ByteStr) (s : List ByteStr) (req : HttpRequest) (s' : List ByteStr)
    (h : parse b s = .ok (req, s')) :
    ∃ pre cl, s = pre ++ s' ∧ req.body = seedOf b ++ pre.flatten ∧
      contentLengthOf (headersOf b) = .ok cl ∧
      (mapFind (headersOf b) hCL = none → req.body = seedOf b ∧ s' = s) ∧
      (cl ≤ (req.body.length : Int) ∨ s' = [] ∨ [] ∈ pre) := by
  cases hhe : headerEndOf b with
  | none =>
    simp only [parse, hhe, Except.ok.injEq, Prod.mk.injEq] at h
    obtain ⟨hreq, hs'⟩ := h
    subst hs'
    refine ⟨[], 0, by simp, ?_, ?_, ?_, ?_⟩
    · rw [← hreq]
      simp [emptyRequest, seedOf, hhe]
    · have hlines : linesOf b = [] := by simp [linesOf, hhe]
      simp [contentLengthOf, headersOf, hlines, parseHeaderLines, mapFind]
    · intro _
      rw [← hreq]
      simp [emptyRequest, seedOf, hhe]
    · left
      rw [← hreq]
      simp [emptyRequest]
  | some he =>
    cases hcl : contentLengthOf (headersOf b) with
    | error e => simp [parse, hhe, hcl] at h
    | ok cl =>
      simp only [parse, hhe, hcl, Except.ok.injEq, Prod.mk.injEq] at h
      obtain ⟨hreq, hs'⟩ := h
      obtain ⟨pre, h1, h2, h3⟩ := readLoop_decompose cl s (seedOf b)
      refine ⟨pre, cl, ?_, ?_, rfl, ?_, ?_⟩
      · rw [← hs']
        exact h1
      · rw [← hreq]
        exact h2
      · intro hnone
        have hcl0 : cl = 0 := by
          rw [contentLengthOf, hnone] at hcl
          exact (Except.ok.inj hcl).symm
        subst hcl0
        have hnr : readLoop 0 s (seedOf b) = (seedOf b, s) :=
          readLoop_noread s (by omega)
        constructor
        · rw [← hreq, hnr]
        · rw [← hs', hnr]
      · rw [← hreq, ← hs']
        exact h3

/-- C1 counterexample: a completed parse with no `Content-Length` header and
a non-empty body — the initial buffer carried bytes after the separator, so
the body is `"hello"`, not empty, and longer than the declared (default 0)
length. -/
theorem claim_C1_counterexample :
    parse (strB "POST /files/a HTTP/1.1\r\n\r\nhello") [] =
      .ok (⟨strB "POST", strB "/files/a", strB "HTTP/1.1", [], strB "hello"⟩, []) ∧
    mapFind ([] : StrMap) hCL = none ∧
    strB "hello" ≠ ([] : ByteStr) ∧
    ¬ (((strB "hello").length : Int) ≤ 0) := by
  refine ⟨rfl, rfl, by decide, by decide⟩

/-- C1 witness: a `Content-Length: 3` request whose body arrives in the
initial buffer (1 byte) plus one further chunk (2 bytes). -/
theorem claim_C1_witness :
    ∃ pre cl,
      [strB "bc"] = pre ++ ([] : List ByteStr) ∧
      (⟨strB "POST", strB "/x", strB "HTTP/1.1", [(strB "content-length", strB "3")],
        strB "abc"⟩ : HttpRequest).body =
        seedOf (strB "POST /x HTTP/1.1\r\ncontent-length: 3\r\n\r\na") ++ pre.flatten ∧
      contentLengthOf (headersOf (strB "POST /x HTTP/1.1\r\ncontent-length: 3\r\n\r\na")) =
        .ok cl ∧
      (mapFind (headersOf (strB "POST /x HTTP/1.1\r\ncontent-length: 3\r\n\r\na")) hCL = none →
        (⟨strB "POST", strB "/x", strB "HTTP/1.1", [(strB "content-length", strB "3")],
          strB "abc"⟩ : HttpRequest).body =
          seedOf (strB "POST /x HTTP/1.1\r\ncontent-length: 3\r\n\r\na") ∧
        ([] : List ByteStr) = [strB "bc"]) ∧
      (cl ≤ (((⟨strB "POST", strB "/x", strB "HTTP/1.1",
          [(strB "content-length", strB "3")], strB "abc"⟩ : HttpRequest).body.length : Int)) ∨
        ([] : List ByteStr) = [] ∨ [] ∈ pre) :=
  claim_C1_amended_body_characterization
    (strB "POST /x HTTP/1.1\r\ncontent-length: 3\r\n\r\na") [strB "bc"]
    ⟨strB "POST", strB "/x", strB "HTTP/1.1", [(strB "content-length", strB "3")],
      strB "abc"⟩ [] rfl

/-- C2 (amended): a `content-length` header value without a numeric prefix
(or out of `int` range) makes `std::stoi` throw; the exception escapes
`HttpRequest::parse` and `handleClient` uncaught, so no response is written,
`close(client_fd)` is never reached, and — the thread being detached — the
C++ runtime calls `std::terminate`, killing the whole process rather than
only that connection. -/
theorem claim_C2_amended_bad_content_length_crashes
    (dir : ByteStr) (fs : FS) (b : ByteStr) (rest : List ByteStr) (e : StoiError)
    (hb : b ≠ []) (hsep : headerEndOf b ≠ none)
    (hcl : contentLengthOf (headersOf b) = .error e) :
    parse b rest = .error e ∧ session dir (b :: rest) fs = ([.crash], fs) := by
  have hparse : parse b rest = .error e := by
    cases hhe : headerEndOf b with
    | none => exact absurd hhe hsep
    | some he => simp [parse, hhe, hcl]
  exact ⟨hparse, session_cons_err dir fs hb hparse⟩

/-- C2 counterexample: `content-length: abc` makes the parse step raise
`std::invalid_argument`; the session's only event is the uncaught-exception
crash — no 404 (or any) response is produced and the error is not confined
to the connection. -/
theorem claim_C2_counterexample :
    parse (strB "GET / HTTP/1.1\r\ncontent-length: abc\r\n\r\n") [] =
      .error .invalidArgument ∧
    session (strB ".") [strB "GET / HTTP/1.1\r\ncontent-length: abc\r\n\r\n"] [] =
      ([.crash], []) ∧
    SessionEvent.crash ∈ [SessionEvent.crash] ∧
    SessionEvent.closeFd ∉ [SessionEvent.crash] := by
  refine ⟨rfl, ?_, by decide, by decide⟩
  exact session_cons_err (strB ".") [] (by decide) rfl

/-- C2 witness: an out-of-`int`-range value crashes the same way. -/
theorem claim_C2_witness :
    parse (strB "GET / HTTP/1.1\r\ncontent-length: 99999999999999999999\r\n\r\n") [] =
      .error .outOfRange ∧
    session (strB ".") [strB "GET / HTTP/1.1\r\ncontent-length: 99999999999999999999\r\n\r\n"] [] =
      ([.crash], []) :=
  claim_C2_amended_bad_content_length_crashes (strB ".") []
    (strB "GET / HTTP/1.1\r\ncontent-length: 99999999999999999999\r\n\r\n") []
    .outOfRange (by decide) (by decide) rfl

theorem readLoop_rest_len (cl : Int) :
    ∀ (s : List ByteStr) (body : ByteStr), (readLoop cl s body).2.length ≤ s.length := by
  intro s
  induction s with
  | nil => intro body; simp [readLoop]
  | cons c rest ih =>
    intro body
    simp only [readLoop]
    by_cases h1 : (body.length : Int) < cl
    · simp only [h1, if_true]
      by_cases h2 : c = []
      · simp [h2]
      · simp only [h2, if_false]
        exact Nat.le_succ_of_le (ih (body ++ c))
    · simp [h1]

theorem parse_rest_len {b : ByteStr} {s : List ByteStr} {req : HttpRequest}
    {s' : List ByteStr} (h : parse b s = .ok (req, s')) : s'.length ≤ s.length := by
  unfold parse at h
  cases hhe : headerEndOf b with
  | none =>
    rw [hhe] at h
    simp only [Except.ok.injEq, Prod.mk.injEq] at h
    rw [← h.2]
  | some he =>
    rw [hhe] at h
    cases hcl : contentLengthOf (headersOf b) with
    | error e => simp [hcl] at h
    | ok cl =>
      simp only [hcl, Except.ok.injEq, Prod.mk.injEq] at h
      rw [← h.2]
      exact readLoop_rest_len cl s (seedOf b)

/-- C5: a request whose `connection` header equals `close` is answered and
then the loop exits and the handle is closed; a request without that header
keeps the connection open, and two sequential such requests each receive
their own response over the same connection. -/
theorem claim_C5_connection_close_semantics
    (dir : ByteStr) (fs : FS) (c : ByteStr) (rest : List ByteStr)
    (req : HttpRequest) (rest2 : List ByteStr)
    (hc : c ≠ []) (hp : parse c rest = .ok (req, rest2)) :
    (mapFind req.headers hConn = some vClose →
      session dir (c :: rest) fs =
        ([.resp (handle dir req fs).1, .closeFd], (handle dir req fs).2)) ∧
    (mapFind req.headers hConn ≠ some vClose →
      session dir (c :: rest) fs =
        (.resp (handle dir req fs).1 :: (session dir rest2 (handle dir req fs).2).1,
          (session dir rest2 (handle dir req fs).2).2) ∧
      ∀ (c2 : ByteStr) (rest3 : List ByteStr) (req2 : HttpRequest) (rest4 : List ByteStr),
        rest2 = c2 :: rest3 → c2 ≠ [] →
        parse c2 rest3 = .ok (req2, rest4) →
        mapFind req2.headers hConn ≠ some vClose →
        ∃ tl, (session dir (c :: rest) fs).1 =
          .resp (handle dir req fs).1 ::
            .resp (handle dir req2 (handle dir req fs).2).1 :: tl) := by
  constructor
  · intro hcl
    exact session_cons_close dir fs hc hp hcl
  · intro hne
    constructor
    · exact session_cons_keep dir fs hc hp hne
    · intro c2 rest3 req2 rest4 hr2 hc2 hp2 hne2
      refine ⟨(session dir rest4 (handle dir req2 (handle dir req fs).2).2).1, ?_⟩
      rw [session_cons_keep dir fs hc hp hne]
      subst hr2
      simp only [List.cons.injEq, true_and]
      rw [session_cons_keep dir (handle dir req fs).2 hc2 hp2 hne2]

/-- C5 witness: a `Connection: close` request is answered then closed; two
plain requests on one connection each get their own response. -/
theorem claim_C5_witness :
    session (strB ".") [strB "GET / HTTP/1.1\r\nconnection: close\r\n\r\n"] [] =
      ([.resp (.raw ok200Raw), .closeFd], []) ∧
    (∃ tl, (session (strB ".")
        [strB "GET / HTTP/1.1\r\n\r\n", strB "GET /user-agent HTTP/1.1\r\n\r\n"] []).1 =
      .resp (.raw ok200Raw) :: .resp (.structured st200 ctText unknownS) :: tl) := by
  constructor
  · exact (claim_C5_connection_close_semantics (strB ".") []
      (strB "GET / HTTP/1.1\r\nconnection: close\r\n\r\n") []
      ⟨strB "GET", strB "/", strB "HTTP/1.1", [(strB "connection", strB "close")], []⟩ []
      (by decide) rfl).1 rfl
  · obtain ⟨tl, htl⟩ := ((claim_C5_connection_close_semantics (strB ".") []
      (strB "GET / HTTP/1.1\r\n\r\n") [strB "GET /user-agent HTTP/1.1\r\n\r\n"]
      ⟨strB "GET", strB "/", strB "HTTP/1.1", [], []⟩
      [strB "GET /user-agent HTTP/1.1\r\n\r\n"]
      (by decide) rfl).2 (by decide)).2
      (strB "GET /user-agent HTTP/1.1\r\n\r\n") []
      ⟨strB "GET", strB "/user-agent", strB "HTTP/1.1", [], []⟩ []
      rfl (by decide) rfl (by decide)
    exact ⟨tl, htl⟩

/-- C10: the closing decision is exact byte equality of the `connection`
header value with `"close"`: any other value (different case, surrounding
whitespace, anything) keeps the connection open and the session loops on. -/
theorem claim_C10_close_requires_exact_value
    (dir : ByteStr) (fs : FS) (c : ByteStr) (rest : List ByteStr)
    (req : HttpRequest) (rest2 : List ByteStr) (v : ByteStr)
    (hc : c ≠ []) (hp : parse c rest = .ok (req, rest2))
    (hv : mapFind req.headers hConn = some v) (hne : v ≠ vClose) :
    session dir (c :: rest) fs =
      (.resp (handle dir req fs).1 :: (session dir rest2 (handle dir req fs).2).1,
        (session dir rest2 (handle dir req fs).2).2) := by
  apply session_cons_keep dir fs hc hp
  intro heq
  rw [hv] at heq
  exact hne (Option.some.inj heq)

/-- C10 witness: `Connection: Close` (capital C) does not close — the
session answers and loops on (here the stream then ends, so it closes only
on the next read's EOF). -/
theorem claim_C10_witness :
    session (strB ".") [strB "GET / HTTP/1.1\r\nConnection: Close\r\n\r\n"] [] =
      (.resp (.raw ok200Raw) :: [.closeFd], []) ∧ strB "Close" ≠ vClose := by
  constructor
  · have h := claim_C10_close_requires_exact_value (strB ".") []
      (strB "GET / HTTP/1.1\r\nConnection: Close\r\n\r\n") []
      ⟨strB "GET", strB "/", strB "HTTP/1.1", [(strB "connection", strB "Close")], []⟩ []
      (strB "Close") (by decide) rfl rfl (by decide)
    rw [h, session_nil]
    rfl
  · decide

/-- C6 (amended): `close(client_fd)` is executed exactly once whenever the
session loop exits without an uncaught exception (normal close, client
disconnect, read error), and never more than once; but when the parse step
throws (malformed `Content-Length`), the exception bypasses the `close` call
— no close happens and the process is terminated instead. -/
theorem claim_C6_amended_close_exactly_once_unless_crash
    (dir : ByteStr) (chunks : List ByteStr) (fs : FS) :
    (session dir chunks fs).1.count SessionEvent.closeFd ≤ 1 ∧
    (SessionEvent.crash ∉ (session dir chunks fs).1 →
      (session dir chunks fs).1.count SessionEvent.closeFd = 1) := by
  have main : ∀ (n : Nat) (chunks : List ByteStr) (fs : FS), chunks.length ≤ n →
      (session dir chunks fs).1.count SessionEvent.closeFd ≤ 1 ∧
      (SessionEvent.crash ∉ (session dir chunks fs).1 →
        (session dir chunks fs).1.count SessionEvent.closeFd = 1) := by
    intro n
    induction n with
    | zero =>
      intro chunks fs hlen
      have hnil : chunks = [] := List.eq_nil_of_length_eq_zero (Nat.le_zero.mp hlen)
      subst hnil
      rw [session_nil]
      exact ⟨Nat.le_refl 1, fun _ => rfl⟩
    | succ n ih =>
      intro chunks fs hlen
      cases chunks with
      | nil =>
        rw [session_nil]
        exact ⟨Nat.le_refl 1, fun _ => rfl⟩
      | cons c rest =>
        by_cases hc : c = []
        · subst hc
          rw [session_cons_emptychunk]
          exact ⟨Nat.le_refl 1, fun _ => rfl⟩
        · cases hp : parse c rest with
          | error e =>
            rw [session_cons_err dir fs hc hp]
            refine ⟨Nat.zero_le 1, fun hno => ?_⟩
            exact absurd (List.mem_singleton_self SessionEvent.crash) hno
          | ok pr =>
            obtain ⟨req, rest2⟩ := pr
            by_cases hcl : mapFind req.headers hConn = some vClose
            · rw [session_cons_close dir fs hc hp hcl]
              exact ⟨Nat.le_refl 1, fun _ => rfl⟩
            · rw [session_cons_keep dir fs hc hp hcl]
              have hr2 : rest2.length ≤ n := by
                have := parse_rest_len hp
                simp only [List.length_cons] at hlen
                omega
              obtain ⟨ihle, ihimp⟩ := ih rest2 (handle dir req fs).2 hr2
              constructor
              · simpa [List.count_cons] using ihle
              · intro hno
                have hno2 : SessionEvent.crash ∉
                    (session dir rest2 (handle dir req fs).2).1 := by
                  intro hmem
                  exact hno (List.mem_cons_of_mem _ hmem)
                simpa [List.count_cons] using ihimp hno2
  exact main chunks.length chunks fs (le_refl _)

/-- C6 counterexample: a parse exception (non-numeric `Content-Length`)
makes the session exit without ever executing `close(client_fd)` — the
event trace is just the crash, with zero close events. -/
theorem claim_C6_counterexample :
    session (strB ".") [strB "GET / HTTP/1.1\r\ncontent-length: two\r\n\r\n"] [] =
      ([.crash], []) ∧
    [SessionEvent.crash].count SessionEvent.closeFd = 0 := by
  refine ⟨?_, by decide⟩
  exact session_cons_err (strB ".") [] (by decide) rfl

/-- C6 witness: a crash-free session (one plain request, then EOF) closes
exactly once. -/
theorem claim_C6_witness :
    SessionEvent.crash ∉ (session (strB ".") [strB "GET / HTTP/1.1\r\n\r\n"] []).1 ∧
    (session (strB ".") [strB "GET / HTTP/1.1\r\n\r\n"] []).1.count SessionEvent.closeFd = 1 := by
  have hs : session (strB ".") [strB "GET / HTTP/1.1\r\n\r\n"] [] =
      ([.resp (.raw ok200Raw), .closeFd], []) := by
    rw [session_cons_keep (strB ".") [] (by decide)
      (show parse (strB "GET / HTTP/1.1\r\n\r\n") [] =
        .ok (⟨strB "GET", strB "/", strB "HTTP/1.1", [], []⟩, []) from rfl)
      (by decide), session_nil]
    rfl
  constructor
  · rw [hs]
    decide
  · have := (claim_C6_amended_close_exactly_once_unless_crash (strB ".")
      [strB "GET / HTTP/1.1\r\n\r\n"] []).2 (by rw [hs]; decide)
    exact this

theorem parseHeaderLine_congr {hs : StrMap} {l1 l2 : ByteStr}
    (h : stripCR l1 = stripCR l2) : parseHeaderLine hs l1 = parseHeaderLine hs l2 := by
  simp only [parseHeaderLine, h]

theorem headerline_split_cr {hs : StrMap} {k v : ByteStr} (hk : 58 ∉ k) (hv : 13 ∉ v) :
    parseHeaderLine hs (k ++ colonSpace ++ v ++ [13]) = mapInsert hs (toLowerS k) v := by
  have hstrip : stripCR (k ++ colonSpace ++ v ++ [13]) = stripCR (k ++ colonSpace ++ v) := by
    rw [stripCR_of_cr (List.getLast?_concat _),
      stripCR_of_ne (by
        have hassoc : k ++ colonSpace ++ v = k ++ (58 :: 32 :: v) := by
          simp [colonSpace, List.append_assoc]
        rw [hassoc]
        exact getLast?_ne_cr_of_not13 hv)]
    simp
  rw [parseHeaderLine_congr hstrip, headerline_split hk hv]

/-- C8: header storage is case-insensitive with last-write-wins.  Two
complete requests differing only in the capitalization of their header name
parse identically; when the name lowercases to `user-agent` the parse result
is the expected request and `/user-agent` is answered with the stored value;
and of two header lines whose names agree up to case, the later line's value
is the one stored under the lowercased name. -/
theorem claim_C8_lowercase_headers_last_write_wins
    (k1 k2 v : ByteStr) (s : List ByteStr)
    (hk1 : goodKey k1) (hk2 : goodKey k2) (hv : goodVal v)
    (heq : toLowerS k1 = toLowerS k2) :
    parse (uaReq k1 v) s = parse (uaReq k2 v) s ∧
    (toLowerS k1 = hUA →
      parse (uaReq k1 v) s =
        .ok (⟨strB "GET", strB "/user-agent", strB "HTTP/1.1", [(hUA, v)], []⟩, s) ∧
      ∀ (dir : ByteStr) (fs : FS),
        handle dir ⟨strB "GET", strB "/user-agent", strB "HTTP/1.1", [(hUA, v)], []⟩ fs =
          (.structured st200 ctText v, fs)) ∧
    (∀ v1 v2 : ByteStr, 13 ∉ v1 → 13 ∉ v2 →
      mapFind (parseHeaderLines
          [k1 ++ colonSpace ++ v1 ++ [13], k2 ++ colonSpace ++ v2 ++ [13]])
        (toLowerS k1) = some v2) := by
  refine ⟨?_, ?_, ?_⟩
  · rw [parse_uaReq hk1 hv, parse_uaReq hk2 hv]
    simp only [uaParsed, heq]
  · intro hua
    constructor
    · rw [parse_uaReq hk1 hv]
      simp only [uaParsed, hua]
      have hclv : contentLengthOf [(hUA, v)] = .ok 0 := rfl
      rw [hclv]
      show Except.ok
          ((⟨strB "GET", strB "/user-agent", strB "HTTP/1.1", [(hUA, v)],
            (readLoop 0 s []).1⟩ : HttpRequest), (readLoop 0 s []).2) =
        Except.ok
          ((⟨strB "GET", strB "/user-agent", strB "HTTP/1.1", [(hUA, v)], []⟩ : HttpRequest), s)
      rw [readLoop_noread s (by simp)]
    · intro dir fs
      rfl
  · intro v1 v2 h1 h2
    rw [show parseHeaderLines
        [k1 ++ colonSpace ++ v1 ++ [13], k2 ++ colonSpace ++ v2 ++ [13]] =
      parseHeaderLine (parseHeaderLine [] (k1 ++ colonSpace ++ v1 ++ [13]))
        (k2 ++ colonSpace ++ v2 ++ [13]) from rfl,
      headerline_split_cr hk1.2.2.2 h1, headerline_split_cr hk2.2.2.2 h2, ← heq]
    show mapFind (mapInsert [(toLowerS k1, v1)] (toLowerS k1) v2) (toLowerS k1) = some v2
    exact mapFind_insert_self _ _ _

/-- C8 witness: `User-Agent: foo/1.0` and `user-agent: foo/1.0` parse to the
same request and both answer `/user-agent` with `foo/1.0`; of two duplicate
header lines, the later value wins. -/
theorem claim_C8_witness :
    parse (uaReq (strB "User-Agent") (strB "foo/1.0")) [] =
      parse (uaReq (strB "user-agent") (strB "foo/1.0")) [] ∧
    parse (uaReq (strB "User-Agent") (strB "foo/1.0")) [] =
      .ok (⟨strB "GET", strB "/user-agent", strB "HTTP/1.1",
        [(hUA, strB "foo/1.0")], []⟩, []) ∧
    handle (strB ".") ⟨strB "GET", strB "/user-agent", strB "HTTP/1.1",
        [(hUA, strB "foo/1.0")], []⟩ [] =
      (.structured st200 ctText (strB "foo/1.0"), []) ∧
    mapFind (parseHeaderLines
        [strB "User-Agent" ++ colonSpace ++ strB "A1" ++ [13],
          strB "user-agent" ++ colonSpace ++ strB "A2" ++ [13]])
      (toLowerS (strB "User-Agent")) = some (strB "A2") := by
  have h := claim_C8_lowercase_headers_last_write_wins
    (strB "User-Agent") (strB "user-agent") (strB "foo/1.0") []
    (by refine ⟨?_, ?_, ?_, ?_⟩ <;> decide)
    (by refine ⟨?_, ?_, ?_, ?_⟩ <;> decide)
    (by refine ⟨?_, ?_, ?_⟩ <;> decide)
    (by decide)
  refine ⟨h.1, (h.2.1 (by decide)).1, (h.2.1 (by decide)).2 (strB ".") [], ?_⟩
  exact h.2.2 (strB "A1") (strB "A2") (by decide) (by decide)
